import Mathlib

/-!
Verification of the Topology component of the pythonocc-airconic repository
(aircraft assembly tree with affinity-driven attachment and a canonical
LISP-like string serialization), plus one property of the configuration app.

The repository ships `airconics/topology.py` only through its test suite and
callers; the tree logic itself is therefore modelled from the specification
(section 3, 4 and 8 of the design document), and validated against the four
literal reference strings of `tests/test_topology.py`.
-/

namespace Airconics

/-- Modelled from the spec: the part kinds recognised by the tree's tag
derivation — Fuselage (tag `E`), LiftingSurface (tag `L`), Engine (tag `P`),
the mirror-plane marker (serialized as the `|` mark), and a generic/unknown
kind whose tag cannot be determined (`airconics/topology.py` is not in the
source tree; the kind dispatch follows spec sections 3, 6 and 9). -/
inductive Kind where
  | fuselage
  | liftingSurface
  | engine
  | mirror
  | generic
deriving DecidableEq, Repr

/-- Modelled from the spec: one node of the topology tree (spec section 3,
"Node"): a unique name, the payload's kind, an opaque payload identity
(never inspected by the tree logic), the initial affinity, the mutable
`remaining_affinity` counter, and the index of the parent node in insertion
order (`none` for the root). -/
structure TreeNode where
  name : String
  kind : Kind
  partId : Nat
  affinity : Nat
  rem : Nat
  parent : Option Nat
deriving DecidableEq, Repr

/-- Modelled from the spec: the topology tree state — the nodes in insertion
order; parent links make it a rooted tree, and the name index is the set of
names of the stored nodes. -/
structure Topology where
  tree : List TreeNode
deriving DecidableEq, Repr

/-- Modelled from the spec: the error taxonomy of spec section 7 —
`DuplicateNameError`, `NoAvailableParentError`, `UnknownKindError`. -/
inductive TopoError where
  | duplicateName
  | noAvailableParent
  | unknownKind
deriving DecidableEq, Repr

/-- Modelled from the spec: the effective branching capacity of a new node.
The spec leaves the integer encoding of mirrored attachment open (sections 3
and 9: "the exact bit convention is an implementation choice"); the four
reference strings force the mirror-plane marker to parent exactly one child
(its mirrored branch), and every other part to use the caller's affinity. -/
def effAffinity (k : Kind) (a : Nat) : Nat :=
  if k = Kind.mirror then 1 else a

/-- Whether a name is already present in the tree's name index. -/
def hasName (t : Topology) (nm : String) : Bool :=
  t.tree.any (fun n => n.name == nm)

/-- Modelled from the spec: the parent scan of `AddPart` (spec section 4) —
the index of the most recently added node whose `remaining_affinity` is
still positive, scanning last-attached-first; `none` when the tree is full. -/
def lastOpenIdx : List TreeNode → Option Nat
  | [] => none
  | n :: rest =>
    match lastOpenIdx rest with
    | some j => some (j + 1)
    | none => if 0 < n.rem then some 0 else none

/-- Decrement the `remaining_affinity` of the node at index `i`. -/
def decRemAt : List TreeNode → Nat → List TreeNode
  | [], _ => []
  | n :: rest, 0 => { n with rem := n.rem - 1 } :: rest
  | n :: rest, Nat.succ i => n :: decRemAt rest i

/-- A freshly inserted node: both affinity fields start at the effective
affinity, the child list is empty (children are recovered from parent links). -/
def mkNode (pid : Nat) (k : Kind) (nm : String) (a : Nat) (par : Option Nat) :
    TreeNode :=
  { name := nm, kind := k, partId := pid,
    affinity := effAffinity k a, rem := effAffinity k a, parent := par }

/-- Modelled from the spec: `Topology.AddPart(part, name, affinity)` (spec
section 4; `airconics/topology.py` is not in the source tree). Duplicate
names are rejected first; an empty tree accepts the part as root with no
attachment check; otherwise the part attaches as the next child of the most
recently added node with positive remaining affinity, consuming one unit of
that parent's capacity, and `NoAvailableParentError` is raised when the tree
is full. Errors leave no partial state behind (all-or-nothing per call). -/
def addPart (t : Topology) (pid : Nat) (k : Kind) (nm : String) (a : Nat) :
    Except TopoError Topology :=
  if hasName t nm then Except.error TopoError.duplicateName
  else if t.tree.isEmpty then Except.ok { tree := [mkNode pid k nm a none] }
  else
    match lastOpenIdx t.tree with
    | none => Except.error TopoError.noAvailableParent
    | some i =>
        Except.ok { tree := decRemAt t.tree i ++ [mkNode pid k nm a (some i)] }

/-- One `AddPart` call: opaque payload identity, kind, name, affinity. -/
structure Call where
  pid : Nat
  kind : Kind
  name : String
  affinity : Nat
deriving DecidableEq, Repr

/-- Run a sequence of `AddPart` calls from a given tree, stopping at the
first error (the exception propagates to the caller, spec section 7). -/
def runFrom (t : Topology) : List Call → Except TopoError Topology
  | [] => Except.ok t
  | c :: cs =>
    match addPart t c.pid c.kind c.name c.affinity with
    | Except.error e => Except.error e
    | Except.ok t2 => runFrom t2 cs

/-- The empty topology (created with no root, spec section 3). -/
def emptyTopology : Topology := { tree := [] }

/-- Run a sequence of `AddPart` calls on an initially empty topology. -/
def runCalls (cs : List Call) : Except TopoError Topology :=
  runFrom emptyTopology cs

/-- The parent link of the node at index `j` (`none` past the end). -/
def parentAt (l : List TreeNode) (j : Nat) : Option Nat :=
  match l.get? j with
  | some n => n.parent
  | none => none

/-- The children of node `i`, in insertion order (indices whose parent link
points at `i`). -/
def childIdxs (l : List TreeNode) (i : Nat) : List Nat :=
  (List.range l.length).filter (fun j => parentAt l j == some i)

/-- Modelled from the spec: the type-tag letter of each kind (spec sections
4 and 8: E = Fuselage, L = LiftingSurface, P = Engine; the mirror marker
contributes the `|` mark; a generic kind has no determinable tag and is
never rendered — serialization fails first with `UnknownKindError`). -/
def tagOf : Kind → String
  | Kind.fuselage => "E"
  | Kind.liftingSurface => "L"
  | Kind.engine => "P"
  | Kind.mirror => "|"
  | Kind.generic => "?"

/-- Modelled from the spec: render the subtree rooted at index `i` (spec
section 4): a node renders as its tag letter, followed when it has children
by `(`, the children joined by `, `, and `)`; a childless node is just its
tag; a mirror marker renders as `|` immediately followed by its mirrored
branch. The fuel argument bounds the recursion depth (child indices are
strictly larger than their parent's, so `l.length` fuel always suffices). -/
def renderIdx (l : List TreeNode) : Nat → Nat → String
  | 0, _ => ""
  | Nat.succ fuel, i =>
    match l.get? i with
    | none => ""
    | some n =>
      let kids := (childIdxs l i).map (fun j => renderIdx l fuel j)
      if n.kind = Kind.mirror then "|" ++ String.intercalate ", " kids
      else if kids.isEmpty then tagOf n.kind
      else tagOf n.kind ++ "(" ++ String.intercalate ", " kids ++ ")"

/-- The canonical string of the whole tree (root is the first node added). -/
def renderTop (t : Topology) : String :=
  if t.tree.isEmpty then "" else renderIdx t.tree t.tree.length 0

/-- Modelled from the spec: `str(tree)` (spec section 4) — a pure read of
the structure; it fails only when some node's kind tag cannot be determined
(`UnknownKindError`), and otherwise returns the canonical string. -/
def strT (t : Topology) : Except TopoError String :=
  if t.tree.any (fun n => n.kind == Kind.generic) then
    Except.error TopoError.unknownKind
  else Except.ok (renderTop t)

/-- Modelled from the spec: `str(tree)` in explicit state-passing form — the
serialization returns its result together with the (unchanged) tree state,
making the "pure read" contract of spec section 4 a checkable statement. -/
def strTState (t : Topology) : Except TopoError String × Topology :=
  (strT t, t)

/-- Build a topology from calls and serialize it. -/
def runStr (cs : List Call) : Except TopoError String :=
  match runCalls cs with
  | Except.error e => Except.error e
  | Except.ok t => strT t

/-- The `conventional` layout of `tests/test_topology.py`: Fuselage(3),
fin(0), mirror_pln(0), tailplane(0), wing(1), engine(0). -/
def conventionalCalls : List Call :=
  [ ⟨1, Kind.fuselage, "Fuselage", 3⟩,
    ⟨2, Kind.liftingSurface, "fin", 0⟩,
    ⟨3, Kind.mirror, "mirror_pln", 0⟩,
    ⟨4, Kind.liftingSurface, "tailplane", 0⟩,
    ⟨5, Kind.liftingSurface, "wing", 1⟩,
    ⟨6, Kind.engine, "engine", 0⟩ ]

/-- The `thunderbolt_a10` layout of `tests/test_topology.py`: Fuselage(3),
mirror(0), powerplant(0), Tailplane(1), Tail fin(0), wing(0). -/
def thunderboltCalls : List Call :=
  [ ⟨1, Kind.fuselage, "Fuselage", 3⟩,
    ⟨2, Kind.mirror, "mirror", 0⟩,
    ⟨3, Kind.engine, "powerplant", 0⟩,
    ⟨4, Kind.liftingSurface, "Tailplane", 1⟩,
    ⟨5, Kind.liftingSurface, "Tail fin", 0⟩,
    ⟨6, Kind.liftingSurface, "wing", 0⟩ ]

/-- The `predator` layout of `tests/test_topology.py`: Fuselage(4),
engine(0), fin(0), mirror_pln(0), wing(0), V-Fin(0). -/
def predatorCalls : List Call :=
  [ ⟨1, Kind.fuselage, "Fuselage", 4⟩,
    ⟨2, Kind.engine, "engine", 0⟩,
    ⟨3, Kind.liftingSurface, "fin", 0⟩,
    ⟨4, Kind.mirror, "mirror_pln", 0⟩,
    ⟨5, Kind.liftingSurface, "wing", 0⟩,
    ⟨6, Kind.liftingSurface, "V-Fin", 0⟩ ]

/-- The `proteus` layout of `tests/test_topology.py`: Fuselage(3),
mirror(0), powerplant(0), wing(0), TP/inbbd wing(1), Pod/tail boom(3),
outbd wing(0), Fin (up)(0), Fin (dwn)(0). -/
def proteusCalls : List Call :=
  [ ⟨1, Kind.fuselage, "Fuselage", 3⟩,
    ⟨2, Kind.mirror, "mirror", 0⟩,
    ⟨3, Kind.engine, "powerplant", 0⟩,
    ⟨4, Kind.liftingSurface, "wing", 0⟩,
    ⟨5, Kind.liftingSurface, "TP/inbbd wing", 1⟩,
    ⟨6, Kind.fuselage, "Pod/tail boom", 3⟩,
    ⟨7, Kind.liftingSurface, "outbd wing", 0⟩,
    ⟨8, Kind.liftingSurface, "Fin (up)", 0⟩,
    ⟨9, Kind.liftingSurface, "Fin (dwn)", 0⟩ ]

/-- The sequence of the depth-first fill-order scenario (spec section 8):
a root of affinity 3 followed by additions A, B, C, D, where the added
children carry affinity 0 as in the spec's scenario list. -/
def c3Calls : List Call :=
  [ ⟨1, Kind.fuselage, "root", 3⟩,
    ⟨2, Kind.liftingSurface, "A", 0⟩,
    ⟨3, Kind.liftingSurface, "B", 0⟩,
    ⟨4, Kind.liftingSurface, "C", 0⟩,
    ⟨5, Kind.liftingSurface, "D", 0⟩ ]

/-- The caller-visible effect of one `AddPart` call under the exception
model: on success the caller holds the updated tree, on error the exception
propagates and the tree object the caller holds is the unchanged one. -/
def tryAdd (t : Topology) (c : Call) : Topology × Option TopoError :=
  match addPart t c.pid c.kind c.name c.affinity with
  | Except.ok t2 => (t2, none)
  | Except.error e => (t, some e)

/-- The number of children ever attached to the node at index `i`: the
number of nodes whose parent link points at `i`. -/
def childCount (l : List TreeNode) (i : Nat) : Nat :=
  (l.map TreeNode.parent).countP (fun p => p == some i)

/-- Every parent link points at an existing (earlier-inserted) node. -/
def ParentBounded (l : List TreeNode) : Prop :=
  ∀ q : Nat, some q ∈ l.map TreeNode.parent → q < l.length

/-- The affinity-conservation invariant: at every node, the children
attached so far plus the remaining affinity equal the initial affinity, and
all parent links are in range. -/
def Conserved (t : Topology) : Prop :=
  (∀ j n, t.tree.get? j = some n →
      childCount t.tree j + n.rem = n.affinity) ∧
  ParentBounded t.tree

/-- Forget the opaque payload identity of a node (keep all structural data). -/
def eraseN (n : TreeNode) : TreeNode := { n with partId := 0 }

/-- Forget all payload identities of a topology. -/
def eraseT (t : Topology) : Topology := { tree := t.tree.map eraseN }

/-- The structural content of an `AddPart` call: kind, name, affinity —
everything except the opaque payload identity. -/
def projCall (c : Call) : Kind × String × Nat := (c.kind, c.name, c.affinity)

/-- Normalise a call's payload identity to 0. -/
def normCall (c : Call) : Call := { c with pid := 0 }

/-- The conventional layout again, but supplied with different opaque part
objects (different payload identities, same names, kinds and affinities). -/
def conventionalCallsAlt : List Call :=
  [ ⟨101, Kind.fuselage, "Fuselage", 3⟩,
    ⟨102, Kind.liftingSurface, "fin", 0⟩,
    ⟨103, Kind.mirror, "mirror_pln", 0⟩,
    ⟨104, Kind.liftingSurface, "tailplane", 0⟩,
    ⟨105, Kind.liftingSurface, "wing", 1⟩,
    ⟨106, Kind.engine, "engine", 0⟩ ]

/-- Python error relevant to the configuration-app embedding. -/
inductive PyError where
  | typeError
deriving DecidableEq, Repr

/-- Embeds the `_Topology` attribute computation of
`Airconics_Viewgrid.__init__` (src/airconics/configuration_app.py, lines
67-74). The method parameter named `Topology` shadows the module-level
`Topology` class inside the body, so the fallback branch
`self._Topology = Topology()` calls the value of the parameter. When the
argument is omitted or `None`, that value is `None`, which is not callable,
and Python raises `TypeError`; a supplied truthy object is stored as-is;
a supplied falsy object also reaches the fallback and calls the (likewise
non-callable) argument object. -/
def viewgridInitTopologyField (arg : Option Topology)
    (truthy : Topology → Bool) : Except PyError Topology :=
  match arg with
  | some t => if truthy t then Except.ok t else Except.error PyError.typeError
  | none => Except.error PyError.typeError

/-! ### Helper lemmas -/

/-- The parent scan fails exactly when every node is exhausted. -/
lemma lastOpenIdx_none_iff {l : List TreeNode} :
    lastOpenIdx l = none ↔ ∀ n ∈ l, n.rem = 0 := by
  induction l with
  | nil => simp [lastOpenIdx]
  | cons hd tl ih =>
    rw [lastOpenIdx]
    cases htl : lastOpenIdx tl with
    | some j =>
      simp only [htl]
      constructor
      · intro h; cases h
      · intro h
        have : ∀ n ∈ tl, n.rem = 0 := fun n hn => h n (List.mem_cons_of_mem hd hn)
        rw [ih.mpr this] at htl
        cases htl
    | none =>
      simp only [htl]
      by_cases hrem : 0 < hd.rem
      · simp only [if_pos hrem]
        constructor
        · intro h; cases h
        · intro h
          have := h hd (List.mem_cons_self hd tl)
          omega
      · simp only [if_neg hrem]
        constructor
        · intro _ n hn
          rcases List.mem_cons.mp hn with h1 | h2
          · subst h1; omega
          · exact ih.mp htl n h2
        · intro _; trivial

/-- The parent scan returns an in-range index pointing at a node with
positive remaining affinity, and every more recently added node is
exhausted. -/
lemma lastOpenIdx_spec {l : List TreeNode} {i : Nat}
    (h : lastOpenIdx l = some i) :
    i < l.length ∧ (∃ n, l.get? i = some n ∧ 0 < n.rem) ∧
      ∀ j n, i < j → l.get? j = some n → n.rem = 0 := by
  induction l generalizing i with
  | nil => simp [lastOpenIdx] at h
  | cons hd tl ih =>
    rw [lastOpenIdx] at h
    cases htl : lastOpenIdx tl with
    | some j =>
      rw [htl] at h
      cases h
      obtain ⟨hlen, ⟨n, hget, hrem⟩, hlater⟩ := ih htl
      refine ⟨by simpa using Nat.succ_lt_succ hlen, ⟨n, by simpa using hget, hrem⟩, ?_⟩
      intro m nm hm hgm
      cases m with
      | zero => omega
      | succ m => exact hlater m nm (by omega) (by simpa using hgm)
    | none =>
      rw [htl] at h
      by_cases hrem : 0 < hd.rem
      · simp [hrem] at h
        subst h
        refine ⟨by simp, ⟨hd, rfl, hrem⟩, ?_⟩
        intro m nm hm hgm
        cases m with
        | zero => omega
        | succ m =>
          simp only [List.get?] at hgm
          exact lastOpenIdx_none_iff.mp htl nm (List.get?_mem hgm)
      · simp [hrem] at h

/-- When the scan of a list fails, every node in it is exhausted. -/
lemma lastOpenIdx_eq_none {l : List TreeNode}
    (h : ∀ n ∈ l, n.rem = 0) : lastOpenIdx l = none := by
  induction l with
  | nil => rfl
  | cons hd tl ih =>
    rw [lastOpenIdx, ih (fun n hn => h n (List.mem_cons_of_mem hd hn))]
    simp [h hd (List.mem_cons_self hd tl)]

/-- Decrementing a remaining-affinity counter does not change the length. -/
lemma decRemAt_length (l : List TreeNode) (i : Nat) :
    (decRemAt l i).length = l.length := by
  induction l generalizing i with
  | nil => rfl
  | cons hd tl ih =>
    cases i with
    | zero => rfl
    | succ i => simpa [decRemAt] using ih i

/-- Decrementing a remaining-affinity counter does not change parent links. -/
lemma decRemAt_map_parent (l : List TreeNode) (i : Nat) :
    (decRemAt l i).map TreeNode.parent = l.map TreeNode.parent := by
  induction l generalizing i with
  | nil => rfl
  | cons hd tl ih =>
    cases i with
    | zero => simp [decRemAt]
    | succ i => simpa [decRemAt] using ih i

/-- Lookup in a decremented list away from the decremented position. -/
lemma decRemAt_get?_ne (l : List TreeNode) (i j : Nat) (h : j ≠ i) :
    (decRemAt l i).get? j = l.get? j := by
  induction l generalizing i j with
  | nil => rfl
  | cons hd tl ih =>
    cases i with
    | zero =>
      cases j with
      | zero => omega
      | succ j => simp [decRemAt]
    | succ i =>
      cases j with
      | zero => simp [decRemAt]
      | succ j => simpa [decRemAt] using ih i j (by omega)

/-- Lookup in a decremented list at the decremented position. -/
lemma decRemAt_get?_eq (l : List TreeNode) (i : Nat) :
    (decRemAt l i).get? i =
      (l.get? i).map (fun n => { n with rem := n.rem - 1 }) := by
  induction l generalizing i with
  | nil => rfl
  | cons hd tl ih =>
    cases i with
    | zero => simp [decRemAt]
    | succ i => simpa [decRemAt] using ih i

/-- A successful `AddPart` on an empty tree installs the part as root. -/
lemma addPart_ok_root {t : Topology} {pid : Nat} {k : Kind} {nm : String}
    {a : Nat} {t2 : Topology}
    (h : addPart t pid k nm a = Except.ok t2) (he : t.tree = []) :
    t2 = { tree := [mkNode pid k nm a none] } := by
  unfold addPart at h
  by_cases hdup : hasName t nm
  · rw [if_pos hdup] at h; cases h
  · rw [if_neg hdup, if_pos (by simp [he])] at h
    cases h; rfl

/-- A successful `AddPart` on a non-empty tree attaches the new node to the
index returned by the parent scan and decrements that parent's counter. -/
lemma addPart_ok_attach {t : Topology} {pid : Nat} {k : Kind} {nm : String}
    {a : Nat} {t2 : Topology}
    (h : addPart t pid k nm a = Except.ok t2) (hne : t.tree ≠ []) :
    hasName t nm = false ∧ ∃ i, lastOpenIdx t.tree = some i ∧
      t2.tree = decRemAt t.tree i ++ [mkNode pid k nm a (some i)] := by
  unfold addPart at h
  by_cases hdup : hasName t nm
  · rw [if_pos hdup] at h; cases h
  · rw [if_neg hdup, if_neg (by simpa using hne)] at h
    cases hopen : lastOpenIdx t.tree with
    | none => rw [hopen] at h; cases h
    | some i =>
      rw [hopen] at h
      cases h
      exact ⟨by simpa using hdup, i, rfl, rfl⟩

/-- Counting children of `j` after an attach step: the decrement changes no
parent link, and the appended node adds one exactly when `j` is the chosen
parent. -/
lemma childCount_attach (l : List TreeNode) (i j : Nat) (x : TreeNode) :
    childCount (decRemAt l i ++ [x]) j =
      childCount l j + (if x.parent == some j then 1 else 0) := by
  unfold childCount
  rw [List.map_append, List.countP_append, decRemAt_map_parent]
  simp [List.countP_cons]

/-- The invariant holds for the empty topology. -/
lemma conserved_empty : Conserved emptyTopology := by
  constructor
  · intro j n hget
    simp [emptyTopology] at hget
  · intro q hq
    simp [emptyTopology] at hq

/-- One successful `AddPart` preserves the affinity-conservation invariant. -/
lemma conserved_addPart {t t2 : Topology} {pid : Nat} {k : Kind}
    {nm : String} {a : Nat}
    (hc : Conserved t) (h : addPart t pid k nm a = Except.ok t2) :
    Conserved t2 := by
  by_cases he : t.tree = []
  · rw [addPart_ok_root h he]
    constructor
    · intro j n hget
      cases j with
      | zero =>
        simp at hget
        subst hget
        simp [childCount, mkNode]
      | succ j => simp at hget
    · intro q hq
      simp [mkNode] at hq
  · obtain ⟨-, i, hopen, ht2⟩ := addPart_ok_attach h he
    obtain ⟨hilen, ⟨ni, hni, hirem⟩, -⟩ := lastOpenIdx_spec hopen
    have hdeclen : (decRemAt t.tree i).length = t.tree.length :=
      decRemAt_length t.tree i
    constructor
    · intro j n hget
      rw [ht2] at hget
      rcases Nat.lt_trichotomy j t.tree.length with hj | hj | hj
      · -- an old node
        rw [List.get?_append (by omega)] at hget
        rw [ht2, childCount_attach]
        by_cases hij : j = i
        · subst hij
          rw [decRemAt_get?_eq, hni] at hget
          simp at hget
          subst hget
          have hinv := hc.1 j ni hni
          simp only [mkNode]
          simp
          omega
        · rw [decRemAt_get?_ne _ _ _ (by omega)] at hget
          have hinv := hc.1 j n hget
          have hbf : (((mkNode pid k nm a (some i)).parent == some j)
              = false) := by
            simp [mkNode]
            omega
          rw [hbf, if_neg (by simp)]
          omega
      · -- the freshly attached node
        subst hj
        rw [List.get?_append_right (by omega)] at hget
        rw [hdeclen] at hget
        simp at hget
        subst hget
        rw [ht2, childCount_attach]
        have hzero : childCount t.tree t.tree.length = 0 := by
          unfold childCount
          rw [List.countP_eq_zero]
          intro p hp
          cases p with
          | none => simp
          | some q =>
            have := hc.2 q hp
            simp
            omega
        have : (((mkNode pid k nm a (some i)).parent ==
            some t.tree.length) = false) := by
          simp [mkNode]
          omega
        rw [this, hzero]
        simp [mkNode]
      · -- out of range: the lookup is past the end of the new list
        exfalso
        rw [List.get?_append_right (by omega), hdeclen] at hget
        have hnone : ([mkNode pid k nm a (some i)] : List TreeNode).get?
            (j - t.tree.length) = none := by
          rw [List.get?_eq_none]
          simp
          omega
        rw [hnone] at hget
        cases hget
    · intro q hq
      rw [ht2, List.map_append, decRemAt_map_parent] at hq
      rw [ht2, List.length_append, hdeclen]
      rcases List.mem_append.mp hq with hold | hnew
      · have := hc.2 q hold
        simp
        omega
      · simp [mkNode] at hnew
        subst hnew
        simp
        omega

/-- Running calls from an invariant-satisfying state preserves the
invariant. -/
lemma runFrom_conserved {t t2 : Topology} {cs : List Call}
    (hc : Conserved t) (h : runFrom t cs = Except.ok t2) : Conserved t2 := by
  induction cs generalizing t with
  | nil =>
    rw [runFrom] at h
    cases h
    exact hc
  | cons c cs ih =>
    rw [runFrom] at h
    cases hstep : addPart t c.pid c.kind c.name c.affinity with
    | error e => rw [hstep] at h; cases h
    | ok t1 =>
      rw [hstep] at h
      exact ih (conserved_addPart hc hstep) h

/-- Erasing payload identities preserves the name index. -/
lemma hasName_eraseT (t : Topology) (nm : String) :
    hasName (eraseT t) nm = hasName t nm := by
  unfold hasName
  have h1 : (eraseT t).tree = t.tree.map eraseN := rfl
  rw [h1, List.any_map]
  exact rfl

/-- Erasing payload identities preserves the parent scan. -/
lemma lastOpenIdx_map_eraseN (l : List TreeNode) :
    lastOpenIdx (l.map eraseN) = lastOpenIdx l := by
  induction l with
  | nil => rfl
  | cons hd tl ih => rw [List.map_cons, lastOpenIdx, lastOpenIdx, ih]; rfl

/-- Erasing payload identities commutes with the affinity decrement. -/
lemma decRemAt_map_eraseN (l : List TreeNode) (i : Nat) :
    decRemAt (l.map eraseN) i = (decRemAt l i).map eraseN := by
  induction l generalizing i with
  | nil => rfl
  | cons hd tl ih =>
    cases i with
    | zero => rfl
    | succ i => simpa [decRemAt] using ih i

/-- Erasing payload identities commutes with `AddPart`: the attachment logic
never reads the opaque payload. -/
lemma addPart_eraseT (t : Topology) (pid : Nat) (k : Kind) (nm : String)
    (a : Nat) :
    addPart (eraseT t) 0 k nm a = (addPart t pid k nm a).map eraseT := by
  unfold addPart
  rw [hasName_eraseT]
  by_cases hdup : hasName t nm
  · rw [if_pos hdup, if_pos hdup]; rfl
  · rw [if_neg hdup, if_neg hdup]
    have hemp : (eraseT t).tree.isEmpty = t.tree.isEmpty := by
      unfold eraseT
      cases ht : t.tree <;> simp
    rw [hemp]
    by_cases he : t.tree.isEmpty
    · rw [if_pos he, if_pos he]; rfl
    · rw [if_neg he, if_neg he]
      have h1 : (eraseT t).tree = t.tree.map eraseN := rfl
      rw [h1, lastOpenIdx_map_eraseN]
      cases hopen : lastOpenIdx t.tree with
      | none => rfl
      | some i =>
        simp only [Except.map]
        rw [decRemAt_map_eraseN]
        unfold eraseT
        simp [List.map_append, eraseN, mkNode]

/-- Erasing payload identities commutes with running a call sequence; the
run of the erased calls depends only on the structural call content. -/
lemma runFrom_eraseT (cs : List Call) (t : Topology) :
    runFrom (eraseT t) (cs.map normCall) = (runFrom t cs).map eraseT := by
  induction cs generalizing t with
  | nil => rfl
  | cons c cs ih =>
    rw [List.map_cons, runFrom, runFrom]
    have hstep : addPart (eraseT t) (normCall c).pid (normCall c).kind
        (normCall c).name (normCall c).affinity =
        (addPart t c.pid c.kind c.name c.affinity).map eraseT := by
      show addPart (eraseT t) 0 c.kind c.name c.affinity = _
      exact addPart_eraseT t c.pid c.kind c.name c.affinity
    rw [hstep]
    cases haddp : addPart t c.pid c.kind c.name c.affinity with
    | error e => rfl
    | ok t1 => exact ih t1

/-- Erasing payload identities preserves parent lookup. -/
lemma parentAt_map_eraseN (l : List TreeNode) (j : Nat) :
    parentAt (l.map eraseN) j = parentAt l j := by
  unfold parentAt
  rw [List.get?_map]
  cases l.get? j <;> rfl

/-- Erasing payload identities preserves the child index lists. -/
lemma childIdxs_map_eraseN (l : List TreeNode) (i : Nat) :
    childIdxs (l.map eraseN) i = childIdxs l i := by
  unfold childIdxs
  rw [List.length_map]
  apply List.filter_congr
  intro j _
  rw [parentAt_map_eraseN]

/-- Erasing payload identities preserves the rendering of every subtree. -/
lemma renderIdx_map_eraseN (l : List TreeNode) (fuel i : Nat) :
    renderIdx (l.map eraseN) fuel i = renderIdx l fuel i := by
  induction fuel generalizing i with
  | zero => rfl
  | succ fuel ih =>
    rw [renderIdx, renderIdx, List.get?_map]
    cases hget : l.get? i with
    | none => rfl
    | some n =>
      simp only [Option.map_some, childIdxs_map_eraseN]
      have hkids : ((childIdxs l i).map
            (fun j => renderIdx (l.map eraseN) fuel j)) =
          ((childIdxs l i).map (fun j => renderIdx l fuel j)) := by
        apply List.map_congr_left
        intro j _
        exact ih j
      rw [hkids]
      rfl

/-- Erasing payload identities preserves the canonical string. -/
lemma renderTop_eraseT (t : Topology) :
    renderTop (eraseT t) = renderTop t := by
  unfold renderTop eraseT
  simp only [List.isEmpty_eq_true, List.map_eq_nil_iff, List.length_map]
  by_cases he : t.tree = []
  · simp [he]
  · rw [if_neg he, if_neg he]
    exact renderIdx_map_eraseN t.tree t.tree.length 0

/-- Erasing payload identities preserves serialization (including its
error behaviour). -/
lemma strT_eraseT (t : Topology) : strT (eraseT t) = strT t := by
  unfold strT
  have hany : ((eraseT t).tree.any fun n => n.kind == Kind.generic) =
      (t.tree.any fun n => n.kind == Kind.generic) := by
    have h1 : (eraseT t).tree = t.tree.map eraseN := rfl
    rw [h1, List.any_map]
    exact rfl
  rw [hany, renderTop_eraseT]

/-! ### Claim theorems -/

/-- C1: for the AddPart sequence applied to an empty Topology — Fuselage
with affinity 3, then fin(0), mirror_pln(0), tailplane(0), wing(1),
engine(0), with the names and kinds given — str(tree) equals exactly
"E(L, |L, L(P))". -/
theorem C1_conventional_layout_str :
    runStr conventionalCalls = Except.ok "E(L, |L, L(P))" := by rfl

/-- C2: for the AddPart sequence applied to an empty Topology —
Fuselage(3), mirror(0), powerplant(0), wing(0), inboard wing(1), pod(3),
outboard wing(0), fin-up(0), fin-down(0), with the kinds given —
str(tree) equals exactly "E(|P, L, L(E(L, L, L)))". -/
theorem C2_proteus_layout_str :
    runStr proteusCalls = Except.ok "E(|P, L, L(E(L, L, L)))" := by rfl

/-- Additional corroboration of the model (not itself a claim): the
predator layout of the reference suite, Fuselage(4), engine(0), fin(0),
mirror_pln(0), wing(0), V-Fin(0), serializes to "E(P, L, |L, L)". -/
theorem predator_layout_str :
    runStr predatorCalls = Except.ok "E(P, L, |L, L)" := by rfl

/-- C3, as stated, is false: in the sequence root(affinity 3) followed by
A, B, C, D (the added children carrying affinity 0 as in the spec's
depth-first-fill scenario), the AddPart call that adds D does not attach D
to the root — the root's affinity is already exhausted by A, B and C, and
the call raises NoAvailableParentError instead. -/
theorem C3_counterexample_d_add_errors :
    runCalls c3Calls = Except.error TopoError.noAvailableParent := by rfl

/-- C3 (amended): AddPart fills the tree depth-first — every node added to
a non-empty tree attaches as the next child of the most recently added node
whose remaining affinity is still positive (all nodes added after that
parent are exhausted), decrementing that parent's counter; in particular,
for a root of affinity 3 followed by A(0), B(0), C(0), the 4th AddPart call
(the one adding C) attaches C to the root, not to A, and a subsequent
addition D raises NoAvailableParentError. -/
theorem C3_depth_first_fill :
    (∀ (t : Topology) (pid : Nat) (k : Kind) (nm : String) (a : Nat)
        (t2 : Topology),
      addPart t pid k nm a = Except.ok t2 → t.tree ≠ [] →
      ∃ i, lastOpenIdx t.tree = some i ∧ i < t.tree.length ∧
        (∃ n, t.tree.get? i = some n ∧ 0 < n.rem) ∧
        (∀ j n, i < j → t.tree.get? j = some n → n.rem = 0) ∧
        t2.tree = decRemAt t.tree i ++ [mkNode pid k nm a (some i)]) ∧
    (∃ t3, runCalls (c3Calls.take 4) = Except.ok t3 ∧
      (t3.tree.get? 3).map TreeNode.parent = some (some 0) ∧
      runFrom t3 [⟨5, Kind.liftingSurface, "D", 0⟩] =
        Except.error TopoError.noAvailableParent) := by
  constructor
  · intro t pid k nm a t2 h hne
    obtain ⟨-, i, hopen, ht2⟩ := addPart_ok_attach h hne
    obtain ⟨hlen, hrem, hlater⟩ := lastOpenIdx_spec hopen
    exact ⟨i, hopen, hlen, hrem, hlater, ht2⟩
  · exact ⟨_, rfl, rfl, rfl⟩

/-- Witness for C3 (amended), at a concrete input: a root of affinity 3 and
one addition A — the scan returns the root's index 0 and A is attached
there, consuming one unit of the root's affinity. -/
theorem C3_depth_first_fill_witness :
    ∃ i, lastOpenIdx ({ tree := [mkNode 1 Kind.fuselage "root" 3 none] } :
        Topology).tree = some i ∧
      i < ({ tree := [mkNode 1 Kind.fuselage "root" 3 none] } :
        Topology).tree.length ∧
      (∃ n, ({ tree := [mkNode 1 Kind.fuselage "root" 3 none] } :
        Topology).tree.get? i = some n ∧ 0 < n.rem) ∧
      (∀ j n, i < j →
        ({ tree := [mkNode 1 Kind.fuselage "root" 3 none] } :
          Topology).tree.get? j = some n → n.rem = 0) ∧
      ({ tree := decRemAt [mkNode 1 Kind.fuselage "root" 3 none] 0 ++
          [mkNode 2 Kind.liftingSurface "A" 0 (some 0)] } :
        Topology).tree =
        decRemAt ({ tree := [mkNode 1 Kind.fuselage "root" 3 none] } :
          Topology).tree i ++ [mkNode 2 Kind.liftingSurface "A" 0 (some i)] :=
  C3_depth_first_fill.1 _ 2 Kind.liftingSurface "A" 0 _ rfl (by simp)

/-- C4: for every topology reachable by a sequence of AddPart calls and
every node, the number of children ever attached to that node plus its
remaining affinity equals its initial affinity (hence the child count never
exceeds the initial affinity, and the remaining counter never underflows);
and an AddPart on a non-empty tree in which every node's remaining affinity
is 0 (with a fresh name — duplicate names are rejected first per the spec's
error precedence) raises NoAvailableParentError. -/
theorem C4_affinity_conservation :
    (∀ (cs : List Call) (t : Topology), runCalls cs = Except.ok t →
      ∀ j n, t.tree.get? j = some n →
        childCount t.tree j ≤ n.affinity ∧
        childCount t.tree j + n.rem = n.affinity) ∧
    (∀ (t : Topology) (pid : Nat) (k : Kind) (nm : String) (a : Nat),
      t.tree ≠ [] → (∀ n ∈ t.tree, n.rem = 0) → hasName t nm = false →
      addPart t pid k nm a = Except.error TopoError.noAvailableParent) := by
  constructor
  · intro cs t hrun j n hget
    have hc := runFrom_conserved conserved_empty hrun
    have hinv := hc.1 j n hget
    exact ⟨by omega, hinv⟩
  · intro t pid k nm a hne hall hfresh
    unfold addPart
    simp only [hfresh, Bool.false_eq_true, if_false]
    rw [if_neg (by simpa using hne), lastOpenIdx_eq_none hall]

/-- Witness for C4 at concrete inputs: a single root of affinity 0 — its
child count 0 equals its initial affinity minus its remaining affinity, and
a further AddPart with a fresh name raises NoAvailableParentError. -/
theorem C4_affinity_conservation_witness :
    (childCount [mkNode 1 Kind.fuselage "F" 0 none] 0 ≤
        (mkNode 1 Kind.fuselage "F" 0 none).affinity ∧
      childCount [mkNode 1 Kind.fuselage "F" 0 none] 0 +
        (mkNode 1 Kind.fuselage "F" 0 none).rem =
        (mkNode 1 Kind.fuselage "F" 0 none).affinity) ∧
    addPart { tree := [mkNode 1 Kind.fuselage "F" 0 none] } 2 Kind.engine
        "G" 0 = Except.error TopoError.noAvailableParent := by
  constructor
  · exact C4_affinity_conservation.1 [⟨1, Kind.fuselage, "F", 0⟩]
      { tree := [mkNode 1 Kind.fuselage "F" 0 none] } rfl 0
      (mkNode 1 Kind.fuselage "F" 0 none) rfl
  · exact C4_affinity_conservation.2
      { tree := [mkNode 1 Kind.fuselage "F" 0 none] } 2 Kind.engine "G" 0
      (by simp) (by decide) rfl

/-- C5: for every tree and every AddPart call whose name already exists in
the tree, the call raises DuplicateNameError and the caller's tree is left
completely unchanged (all-or-nothing: the failed call produces no successor
state). -/
theorem C5_duplicate_name_rejected :
    ∀ (t : Topology) (c : Call), hasName t c.name = true →
      addPart t c.pid c.kind c.name c.affinity =
        Except.error TopoError.duplicateName ∧
      tryAdd t c = (t, some TopoError.duplicateName) := by
  intro t c h
  have h1 : addPart t c.pid c.kind c.name c.affinity =
      Except.error TopoError.duplicateName := by
    unfold addPart
    rw [if_pos h]
  refine ⟨h1, ?_⟩
  unfold tryAdd
  rw [h1]

/-- Witness for C5 at a concrete input: re-adding the name "Fuselage" to a
tree that already holds it fails with DuplicateNameError and leaves the
tree unchanged. -/
theorem C5_duplicate_name_rejected_witness :
    addPart { tree := [mkNode 1 Kind.fuselage "Fuselage" 3 none] } 2
        Kind.engine "Fuselage" 0 =
      Except.error TopoError.duplicateName ∧
    tryAdd { tree := [mkNode 1 Kind.fuselage "Fuselage" 3 none] }
        ⟨2, Kind.engine, "Fuselage", 0⟩ =
      ({ tree := [mkNode 1 Kind.fuselage "Fuselage" 3 none] },
        some TopoError.duplicateName) :=
  C5_duplicate_name_rejected
    { tree := [mkNode 1 Kind.fuselage "Fuselage" 3 none] }
    ⟨2, Kind.engine, "Fuselage", 0⟩ rfl

/-- C6: two runs applying the same sequence of AddPart calls with equal
(kind, name, affinity) content — regardless of the identities of the opaque
part objects supplied — produce trees that serialize identically under
str(tree) (including identical error outcomes). -/
theorem C6_structural_determinism :
    ∀ cs1 cs2 : List Call, cs1.map projCall = cs2.map projCall →
      runStr cs1 = runStr cs2 := by
  intro cs1 cs2 hproj
  have hnf : ∀ cs : List Call, cs.map normCall =
      (cs.map projCall).map (fun p => ⟨0, p.1, p.2.1, p.2.2⟩) := by
    intro cs
    rw [List.map_map]
    apply List.map_congr_left
    intro c _
    rfl
  have hnorm : cs1.map normCall = cs2.map normCall := by
    rw [hnf, hnf, hproj]
  have herase : (runCalls cs1).map eraseT = (runCalls cs2).map eraseT := by
    have e1 := runFrom_eraseT cs1 emptyTopology
    have e2 := runFrom_eraseT cs2 emptyTopology
    have he : eraseT emptyTopology = emptyTopology := rfl
    rw [he] at e1 e2
    unfold runCalls
    rw [← e1, ← e2, hnorm]
  unfold runStr
  cases h1 : runCalls cs1 with
  | error e =>
    cases h2 : runCalls cs2 with
    | error e2 =>
      rw [h1, h2] at herase
      simp only [Except.map] at herase
      cases herase
      rfl
    | ok t2 =>
      rw [h1, h2] at herase
      simp only [Except.map] at herase
      cases herase
  | ok t1 =>
    cases h2 : runCalls cs2 with
    | error e2 =>
      rw [h1, h2] at herase
      simp only [Except.map] at herase
      cases herase
    | ok t2 =>
      rw [h1, h2] at herase
      simp only [Except.map] at herase
      have ht : eraseT t1 = eraseT t2 := Except.ok.inj herase
      show strT t1 = strT t2
      rw [← strT_eraseT t1, ← strT_eraseT t2, ht]

/-- Witness for C6 at concrete inputs: the conventional layout built from
two different sets of part objects (payload identities 1..6 versus
101..106) serializes identically. -/
theorem C6_structural_determinism_witness :
    runStr conventionalCalls = runStr conventionalCallsAlt :=
  C6_structural_determinism conventionalCalls conventionalCallsAlt rfl

/-- C7: serialization is a pure read — in state-passing form, str(tree)
returns the tree unchanged, and calling it twice with no mutation in
between yields identical output. -/
theorem C7_serialization_pure :
    ∀ t : Topology, (strTState t).2 = t ∧
      (strTState ((strTState t).2)).1 = (strTState t).1 :=
  fun _ => ⟨rfl, rfl⟩

/-- C8: for every part, name and affinity, the first AddPart call on an
empty Topology succeeds unconditionally and installs that part as the root
(no parent scan, affinity check, or attachment error applies). -/
theorem C8_first_addpart_becomes_root :
    ∀ (pid : Nat) (k : Kind) (nm : String) (a : Nat),
      addPart emptyTopology pid k nm a =
        Except.ok { tree := [mkNode pid k nm a none] } := by
  intro pid k nm a
  rfl

/-- C9: for the AddPart sequence Fuselage(3), mirror marker(0),
engine "powerplant"(0), Tailplane(1), "Tail fin"(0), wing(0) applied to an
empty Topology, str(tree) equals exactly "E(|P, L(L), L)" — the mirror
marker added directly after the root makes the next-added engine the
mirrored branch carrying the "|" mark. -/
theorem C9_thunderbolt_layout_str :
    runStr thunderboltCalls = Except.ok "E(|P, L(L), L)" := by rfl

/-- C10: constructing Airconics_Viewgrid with the Topology argument omitted
or None never produces a widget holding an empty Topology: the parameter
named Topology shadows the Topology class, so the fallback branch calls the
None argument and raises TypeError. -/
theorem C10_viewgrid_topology_shadowing :
    ∀ truthy : Topology → Bool,
      viewgridInitTopologyField none truthy =
        Except.error PyError.typeError ∧
      ∀ t : Topology,
        viewgridInitTopologyField none truthy ≠ Except.ok t := by
  intro truthy
  refine ⟨rfl, ?_⟩
  intro t h
  simp [viewgridInitTopologyField] at h

end Airconics
